import Mathlib

/-!
# Verification of the MLPA scale version graph engine

Shallow embedding of the core modules of the MLPA beta prototype:

* `src/logic/scaleGraph.js` — pure graph queries (`buildCascadeDeleteSet`,
  `findRoots`, `isRoot`, …) over the scales collection.  A JavaScript `Map`
  is modelled as an association list `List (String × Scale)` whose order is
  the Map's iteration order.
* `src/layout/branchPositioning.js` — `getNextBranchPosition`.
* `src/logic/scaleGraph.js` (adapter part) — `validateAdaptScaleResponse`
  and `expandWithRubrics`.
* `src/state/scaleStore.js` and `src/utils/invariants.js` —
  `addScale` / `removeScalesCascade` with `validateScale` /
  `validateBranchedScale` (exceptions are modelled by `Except`).
* `src/controllers/flowEditorController.js` / `flowController.js` —
  `prepareDelete` and `handleDeleteScale`.

JavaScript truthiness is modelled explicitly: a missing / `null` field is
`Option.none`, and the empty string `""` is falsy wherever the source tests
a string with `if (x)` / `x || …`.
-/

namespace MLPA

/-- A scale node as read by the graph-query module: only the fields that
`scaleGraph.js` inspects (`parent_scale_id`, `is_root`).  `parent_scale_id`
is `none` when the field is absent/`null`. -/
structure Scale where
  parent_scale_id : Option String
  is_root : Bool
deriving Repr, DecidableEq

/-- The scales collection: a JavaScript `Map` as an association list in
iteration order (keys are `scale_id`s). -/
abbrev Scales := List (String × Scale)

/-- JS truthiness of `s.parent_scale_id`: `undefined`/`null` and the empty
string are falsy, so a truthy parent link is `some p` with `p ≠ ""`. -/
def parentOf (s : Scale) : Option String :=
  match s.parent_scale_id with
  | some p => if p = "" then none else some p
  | none => none

/-- `scaleGraph.js` `isRoot`: `!!(scale && (scale.is_root || !scale.parent_scale_id))`. -/
def isRoot : Option Scale → Bool
  | none => false
  | some s => s.is_root || (parentOf s).isNone

/-- `scaleGraph.js` `findRoots`: collect ids whose node satisfies
`scale.is_root || !scale.parent_scale_id`, in iteration order. -/
def findRoots : Scales → List String
  | [] => []
  | (id, s) :: rest =>
      if s.is_root || (parentOf s).isNone then id :: findRoots rest
      else findRoots rest

/-- The body of one iteration of the `for (const [sId, s] of scales)` loop in
`buildCascadeDeleteSet`: add `sId` when it is not yet in the set, its
`parent_scale_id` is truthy and the parent is already in the set. -/
def wantsAdd (td : List String) (sId : String) (s : Scale) : Bool :=
  !td.contains sId &&
    (match parentOf s with
     | some p => td.contains p
     | none => false)

/-- One full scan of the collection (`for (const [sId, s] of scales)`),
threading the growing deletion set exactly as the JS loop mutates
`toDelete` mid-scan. -/
def cascadePass : Scales → List String → List String
  | [], td => td
  | (sId, s) :: rest, td =>
      if wantsAdd td sId s then cascadePass rest (td ++ [sId])
      else cascadePass rest td

/-- The `while (modified)` loop of `buildCascadeDeleteSet`, with explicit
fuel: `modified` is true exactly when the scan appended something, i.e.
when `cascadePass scales td ≠ td`. -/
def cascadeLoop (scales : Scales) : Nat → List String → List String
  | 0, td => td
  | fuel + 1, td =>
      let td' := cascadePass scales td
      if td' = td then td else cascadeLoop scales fuel td'

/-- `scaleGraph.js` `buildCascadeDeleteSet`: start from `{targetId}` and
iterate scans to a fixed point.  The JS loop is unbounded; here it is run
with fuel `scales.length + 1`, which suffices (each productive scan adds at
least one key of the collection — proved in `cascadeLoop_fix` below). -/
def buildCascadeDeleteSet (scales : Scales) (targetId : String) : List String :=
  cascadeLoop scales (scales.length + 1) [targetId]

/-- `scaleStore.js` `removeScalesCascade`: delete every id in `ids` from
the Map (order-independent; modelled as a filter on keys).  The
`activeScaleId` bookkeeping is not structural and is omitted. -/
def removeScalesCascade (scales : Scales) (ids : List String) : Scales :=
  scales.filter (fun p => !ids.contains p.1)

/-- `Map.get`: the value at the first (unique) matching key. -/
def mapGet (scales : Scales) (id : String) : Option Scale :=
  (scales.find? (fun p => p.1 = id)).map Prod.snd

/-- Membership in the cascade set, specified independently of the
algorithm: the target itself, plus every node reachable from the target by
following truthy `parent_scale_id` links upward to it (i.e. the transitive
descendants of the target). -/
inductive InCascade (scales : Scales) (target : String) : String → Prop
  | base : InCascade scales target target
  | step {sId : String} {s : Scale} {p : String} :
      (sId, s) ∈ scales → parentOf s = some p →
      InCascade scales target p → InCascade scales target sId

-- ============================================================================
-- Lemmas about `cascadePass` / `cascadeLoop`
-- ============================================================================

theorem contains_iff (l : List String) (a : String) :
    l.contains a = true ↔ a ∈ l := List.elem_iff

theorem contains_false_iff (l : List String) (a : String) :
    l.contains a = false ↔ a ∉ l := by
  rw [← Bool.not_eq_true, not_iff_not]
  exact contains_iff l a

/-- A scan only appends: the input set is a prefix of the output, and every
appended id is a key of the collection that was not in the input set. -/
theorem cascadePass_append (scales : Scales) (td : List String) :
    ∃ l, cascadePass scales td = td ++ l ∧
      ∀ x ∈ l, x ∈ scales.map Prod.fst ∧ td.contains x = false := by
  induction scales generalizing td with
  | nil => exact ⟨[], by simp [cascadePass]⟩
  | cons hd rest ih =>
    obtain ⟨sId, s⟩ := hd
    by_cases h : wantsAdd td sId s = true
    · obtain ⟨l, hl, hprop⟩ := ih (td ++ [sId])
      refine ⟨sId :: l, ?_, ?_⟩
      · simp [cascadePass, h, hl]
      · intro x hx
        rcases List.mem_cons.mp hx with rfl | hx'
        · refine ⟨by simp, ?_⟩
          have := h
          simp [wantsAdd] at this
          simpa using this.1
        · obtain ⟨hk, hc⟩ := hprop x hx'
          refine ⟨by simp at hk ⊢; tauto, ?_⟩
          rw [contains_false_iff] at hc ⊢
          intro hmem
          exact hc (List.mem_append_left _ hmem)
    · obtain ⟨l, hl, hprop⟩ := ih td
      refine ⟨l, by simp [cascadePass, h, hl], ?_⟩
      intro x hx
      obtain ⟨hk, hc⟩ := hprop x hx
      exact ⟨by simp at hk ⊢; tauto, hc⟩

/-- Elements are never removed by a scan. -/
theorem cascadePass_subset (scales : Scales) (td : List String) :
    ∀ x ∈ td, x ∈ cascadePass scales td := by
  obtain ⟨l, hl, -⟩ := cascadePass_append scales td
  intro x hx
  rw [hl]
  exact List.mem_append_left _ hx

/-- If a scan is a fixed point, then the set is closed under the child
step: any entry whose truthy parent is in the set is itself in the set. -/
theorem cascadePass_fix_closed {scales : Scales} {td : List String}
    (hfix : cascadePass scales td = td) :
    ∀ sId s p, (sId, s) ∈ scales → parentOf s = some p →
      td.contains p = true → td.contains sId = true := by
  induction scales generalizing td with
  | nil => intro sId s p h; simp at h
  | cons hd rest ih =>
    obtain ⟨hId, hs⟩ := hd
    intro sId s p hmem hp hptd
    by_cases hadd : wantsAdd td hId hs = true
    · exfalso
      have hstep : cascadePass ((hId, hs) :: rest) td = cascadePass rest (td ++ [hId]) := by
        simp [cascadePass, hadd]
      obtain ⟨l, hl, -⟩ := cascadePass_append rest (td ++ [hId])
      have : td ++ [hId] ++ l = td := by rw [← hl, ← hstep, hfix]
      have hlen : td.length + 1 + l.length = td.length := by
        simpa using congrArg List.length this
      omega
    · have hstep : cascadePass ((hId, hs) :: rest) td = cascadePass rest td := by
        simp [cascadePass, hadd]
      rcases List.mem_cons.mp hmem with heq | hmem'
      · -- the entry is the head; since it was not added and its parent is
        -- in `td`, it must already be in `td`
        cases heq
        simp only [wantsAdd, hp, hptd, Bool.and_true, Bool.not_eq_true',
          Bool.not_eq_false] at hadd
        exact hadd
      · exact ih (hstep.symm.trans hfix) sId s p hmem' hp hptd

/-- The number of (distinct) collection keys missing from the set: the
termination measure of the fixed-point loop. -/
def missingKeys (scales : Scales) (td : List String) : Nat :=
  (((scales.map Prod.fst).dedup).filter (fun k => !td.contains k)).length

theorem missingKeys_le (scales : Scales) (td : List String) :
    missingKeys scales td ≤ scales.length := by
  calc missingKeys scales td
      ≤ ((scales.map Prod.fst).dedup).length :=
        List.length_filter_le _ _
    _ ≤ (scales.map Prod.fst).length :=
        (List.dedup_sublist _).length_le
    _ = scales.length := List.length_map _ _

/-- A productive scan strictly decreases the number of missing keys. -/
theorem missingKeys_lt_of_modified {scales : Scales} {td : List String}
    (hmod : cascadePass scales td ≠ td) :
    missingKeys scales (cascadePass scales td) < missingKeys scales td := by
  obtain ⟨l, hl, hprop⟩ := cascadePass_append scales td
  have hlne : l ≠ [] := by
    intro h; exact hmod (by simp [hl, h])
  obtain ⟨k, hk⟩ := List.exists_mem_of_ne_nil l hlne
  obtain ⟨hkkey, hknotin⟩ := hprop k hk
  -- the filter predicate for the new set is pointwise stronger
  have hsub : (((scales.map Prod.fst).dedup).filter
        (fun x => !(cascadePass scales td).contains x)).Sublist
      (((scales.map Prod.fst).dedup).filter (fun x => !td.contains x)) := by
    apply List.monotone_filter_right
    intro a ha
    simp only [Bool.not_eq_true', ← Bool.not_eq_true] at ha ⊢
    intro hc
    exact ha (by
      have := cascadePass_subset scales td a (by simpa using hc)
      simpa using this)
  refine Nat.lt_of_le_of_ne hsub.length_le ?_
  intro hlen
  have heq := hsub.eq_of_length hlen
  have hkmem : k ∈ ((scales.map Prod.fst).dedup).filter (fun x => !td.contains x) := by
    simp only [List.mem_filter, List.mem_dedup, Bool.not_eq_true']
    exact ⟨hkkey, hknotin⟩
  rw [← heq] at hkmem
  simp only [List.mem_filter, Bool.not_eq_true'] at hkmem
  have : k ∈ cascadePass scales td := by
    rw [hl]; exact List.mem_append_right _ hk
  rw [contains_false_iff] at hkmem
  exact hkmem.2 this

/-- With more fuel than missing keys, the loop reaches a genuine fixed
point of `cascadePass`. -/
theorem cascadeLoop_fix {scales : Scales} :
    ∀ fuel td, missingKeys scales td < fuel →
      cascadePass scales (cascadeLoop scales fuel td) = cascadeLoop scales fuel td := by
  intro fuel
  induction fuel with
  | zero => intro td h; omega
  | succ n ih =>
    intro td h
    by_cases hfix : cascadePass scales td = td
    · simp [cascadeLoop, hfix]
    · have hlt := missingKeys_lt_of_modified hfix
      have : cascadeLoop scales (n + 1) td = cascadeLoop scales n (cascadePass scales td) := by
        simp [cascadeLoop, hfix]
      rw [this]
      exact ih _ (by omega)

/-- Once at a fixed point the loop is inert, whatever the fuel. -/
theorem cascadeLoop_of_fix {scales : Scales} {td : List String}
    (hfix : cascadePass scales td = td) :
    ∀ fuel, cascadeLoop scales fuel td = td := by
  intro fuel
  cases fuel with
  | zero => rfl
  | succ n => simp [cascadeLoop, hfix]

/-- Fuel irrelevance above the threshold: any two sufficient fuels give the
same result. -/
theorem cascadeLoop_fuel_irrel {scales : Scales} :
    ∀ f₁ f₂ td, missingKeys scales td < f₁ → f₁ ≤ f₂ →
      cascadeLoop scales f₂ td = cascadeLoop scales f₁ td := by
  intro f₁
  induction f₁ with
  | zero => intro f₂ td h; omega
  | succ n ih =>
    intro f₂ td h hle
    obtain ⟨m, rfl⟩ : ∃ m, f₂ = m + 1 := ⟨f₂ - 1, by omega⟩
    by_cases hfix : cascadePass scales td = td
    · simp [cascadeLoop, hfix]
    · have hlt := missingKeys_lt_of_modified hfix
      have h1 : cascadeLoop scales (n + 1) td = cascadeLoop scales n (cascadePass scales td) := by
        simp [cascadeLoop, hfix]
      have h2 : cascadeLoop scales (m + 1) td = cascadeLoop scales m (cascadePass scales td) := by
        simp [cascadeLoop, hfix]
      rw [h1, h2]
      rcases Nat.eq_zero_or_pos n with hn | hn
      · omega
      · exact ih m _ (by omega) (by omega)

/-- The starting set survives into the loop's result. -/
theorem cascadeLoop_mem {scales : Scales} :
    ∀ fuel td x, x ∈ td → x ∈ cascadeLoop scales fuel td := by
  intro fuel
  induction fuel with
  | zero => intro td x hx; exact hx
  | succ n ih =>
    intro td x hx
    by_cases hfix : cascadePass scales td = td
    · simpa [cascadeLoop, hfix] using hx
    · have : cascadeLoop scales (n + 1) td = cascadeLoop scales n (cascadePass scales td) := by
        simp [cascadeLoop, hfix]
      rw [this]
      exact ih _ x (cascadePass_subset scales td x hx)

/-- Unpacking the add-guard of the scan. -/
theorem wantsAdd_spec {td : List String} {sId : String} {s : Scale}
    (h : wantsAdd td sId s = true) :
    td.contains sId = false ∧ ∃ p, parentOf s = some p ∧ td.contains p = true := by
  unfold wantsAdd at h
  cases hp : parentOf s with
  | none => rw [hp] at h; simp at h
  | some p =>
    rw [hp] at h
    rw [Bool.and_eq_true, Bool.not_eq_true'] at h
    exact ⟨h.1, p, rfl, h.2⟩

/-- Everything a scan adds is target-or-descendant, provided everything
already in the set is. -/
theorem cascadePass_sound {scales : Scales} {target : String} :
    ∀ (l : Scales) (td : List String),
      (∀ e ∈ l, e ∈ scales) →
      (∀ x ∈ td, InCascade scales target x) →
      ∀ x ∈ cascadePass l td, InCascade scales target x := by
  intro l
  induction l with
  | nil => intro td _ hinv x hx; exact hinv x hx
  | cons hd rest ih =>
    obtain ⟨sId, s⟩ := hd
    intro td hsub hinv x hx
    by_cases hadd : wantsAdd td sId s = true
    · rw [show cascadePass ((sId, s) :: rest) td = cascadePass rest (td ++ [sId]) by
        simp [cascadePass, hadd]] at hx
      refine ih (td ++ [sId]) (fun e he => hsub e (List.mem_cons_of_mem _ he)) ?_ x hx
      intro y hy
      rcases List.mem_append.mp hy with hy' | hy'
      · exact hinv y hy'
      · obtain rfl : y = sId := by simpa using hy'
        obtain ⟨-, p, hp, hptd⟩ := wantsAdd_spec hadd
        exact InCascade.step (hsub _ (List.mem_cons_self _ _)) hp
          (hinv p ((contains_iff _ _).mp hptd))
    · rw [show cascadePass ((sId, s) :: rest) td = cascadePass rest td by
        simp [cascadePass, hadd]] at hx
      exact ih td (fun e he => hsub e (List.mem_cons_of_mem _ he)) hinv x hx

/-- Everything the loop produces is target-or-descendant. -/
theorem cascadeLoop_sound {scales : Scales} {target : String} :
    ∀ (fuel : Nat) (td : List String),
      (∀ x ∈ td, InCascade scales target x) →
      ∀ x ∈ cascadeLoop scales fuel td, InCascade scales target x := by
  intro fuel
  induction fuel with
  | zero => intro td hinv x hx; exact hinv x hx
  | succ n ih =>
    intro td hinv x hx
    by_cases hfix : cascadePass scales td = td
    · rw [show cascadeLoop scales (n + 1) td = td by simp [cascadeLoop, hfix]] at hx
      exact hinv x hx
    · rw [show cascadeLoop scales (n + 1) td = cascadeLoop scales n (cascadePass scales td) by
        simp [cascadeLoop, hfix]] at hx
      exact ih _ (cascadePass_sound scales td (fun e he => he) hinv) x hx

/-- The result of `buildCascadeDeleteSet` is a fixed point of the scan. -/
theorem buildCascadeDeleteSet_fix (scales : Scales) (targetId : String) :
    cascadePass scales (buildCascadeDeleteSet scales targetId) =
      buildCascadeDeleteSet scales targetId := by
  apply cascadeLoop_fix
  have := missingKeys_le scales [targetId]
  omega

/-- Completeness: every descendant (and the target) lands in the result. -/
theorem InCascade_mem_buildCascadeDeleteSet {scales : Scales} {targetId : String} :
    ∀ {id : String}, InCascade scales targetId id →
      id ∈ buildCascadeDeleteSet scales targetId := by
  intro id h
  induction h with
  | base => exact cascadeLoop_mem _ _ targetId (by simp)
  | step hmem hp _ ih =>
    have hfix := buildCascadeDeleteSet_fix scales targetId
    have := cascadePass_fix_closed hfix _ _ _ hmem hp ((contains_iff _ _).mpr ih)
    exact (contains_iff _ _).mp this

/-- `InCascade` only depends on the entries of the collection, not on their
order. -/
theorem InCascade_congr {l₁ l₂ : Scales} {target : String}
    (h : ∀ e, e ∈ l₁ → e ∈ l₂) :
    ∀ {id : String}, InCascade l₁ target id → InCascade l₂ target id := by
  intro id hin
  induction hin with
  | base => exact InCascade.base
  | step hmem hp _ ih => exact InCascade.step (h _ hmem) hp ih

/-- **C1.** `buildCascadeDeleteSet(scales, target_id)` contains exactly
`target_id` together with all transitive descendants of `target_id`
(nodes reachable from it via `parent_scale_id` links), and, as a set, the
result does not change when the collection's iteration order is
reversed. -/
theorem buildCascadeDeleteSet_correct (scales : Scales) (targetId : String) :
    (∀ id, id ∈ buildCascadeDeleteSet scales targetId ↔ InCascade scales targetId id)
    ∧ (∀ id, id ∈ buildCascadeDeleteSet scales.reverse targetId ↔
        id ∈ buildCascadeDeleteSet scales targetId) := by
  have hchar : ∀ (l : Scales) (id : String),
      id ∈ buildCascadeDeleteSet l targetId ↔ InCascade l targetId id := by
    intro l id
    constructor
    · intro h
      exact cascadeLoop_sound _ _ (by
        intro x hx
        obtain rfl : x = targetId := by simpa using hx
        exact InCascade.base) id h
    · exact InCascade_mem_buildCascadeDeleteSet
  refine ⟨hchar scales, fun id => ?_⟩
  rw [hchar scales.reverse id, hchar scales id]
  constructor
  · exact InCascade_congr (fun e he => List.mem_reverse.mp he)
  · exact InCascade_congr (fun e he => List.mem_reverse.mpr he)

/-- **C9.** The fixed-point loop of `buildCascadeDeleteSet` terminates on
every finite collection (cycles and dangling parents included): the result
reached with fuel `scales.length + 1` is already a fixed point of a full
scan, and giving the loop any larger fuel produces the same set — i.e. the
JS `while` loop stops after at most `scales.length + 1` scans. -/
theorem buildCascadeDeleteSet_terminates (scales : Scales) (targetId : String) :
    cascadePass scales (buildCascadeDeleteSet scales targetId) =
        buildCascadeDeleteSet scales targetId
    ∧ ∀ fuel, scales.length + 1 ≤ fuel →
        cascadeLoop scales fuel [targetId] = buildCascadeDeleteSet scales targetId := by
  refine ⟨buildCascadeDeleteSet_fix scales targetId, fun fuel hfuel => ?_⟩
  apply cascadeLoop_fuel_irrel
  · have := missingKeys_le scales [targetId]
    omega
  · exact hfuel

/-- Witness for C9 on a collection whose parent links form a 2-cycle. -/
theorem buildCascadeDeleteSet_terminates_witness :
    cascadeLoop [("a", ⟨some "b", false⟩), ("b", ⟨some "a", false⟩)] 7 ["a"] =
      buildCascadeDeleteSet [("a", ⟨some "b", false⟩), ("b", ⟨some "a", false⟩)] "a" :=
  (buildCascadeDeleteSet_terminates
    [("a", ⟨some "b", false⟩), ("b", ⟨some "a", false⟩)] "a").2 7 (by decide)

/-- The parent-closure invariant, as a decidable check: every non-root
node's (truthy) `parent_scale_id` is a key of the collection. -/
def parentClosed (scales : Scales) : Bool :=
  scales.all fun e =>
    isRoot (some e.2) ||
      (match parentOf e.2 with
       | some p => (scales.map Prod.fst).contains p
       | none => false)

theorem parentClosed_iff (scales : Scales) :
    parentClosed scales = true ↔
      ∀ id s, (id, s) ∈ scales → isRoot (some s) = false →
        ∃ p, parentOf s = some p ∧ p ∈ scales.map Prod.fst := by
  unfold parentClosed
  rw [List.all_eq_true]
  constructor
  · intro h id s hmem hroot
    have := h (id, s) hmem
    rw [Bool.or_eq_true] at this
    rcases this with h' | h'
    · exact absurd h' (by simp [hroot])
    · cases hp : parentOf s with
      | none => rw [hp] at h'; simp at h'
      | some p =>
        rw [hp] at h'
        exact ⟨p, rfl, (contains_iff _ _).mp h'⟩
  · intro h e hmem
    rw [Bool.or_eq_true]
    by_cases hroot : isRoot (some e.2) = true
    · exact Or.inl hroot
    · obtain ⟨p, hp, hpmem⟩ := h e.1 e.2 hmem (by simpa using hroot)
      rw [hp]
      exact Or.inr ((contains_iff _ _).mpr hpmem)

/-- **C2.** Parent-closure is preserved by cascade removal: if every
non-root node's parent is present, and a present non-root target is
removed together with its whole cascade set (as `removeScalesCascade`
does), every remaining non-root node's parent is still present. -/
theorem removeScalesCascade_preserves_parentClosed
    (scales : Scales) (target : String)
    (hclosed : parentClosed scales = true)
    (t : Scale) (htmem : mapGet scales target = some t)
    (htroot : isRoot (some t) = false) :
    parentClosed
      (removeScalesCascade scales (buildCascadeDeleteSet scales target)) = true := by
  set D := buildCascadeDeleteSet scales target with hD
  rw [parentClosed_iff]
  intro id s hmem hroot
  rw [removeScalesCascade, List.mem_filter] at hmem
  obtain ⟨hmem', hkeep⟩ := hmem
  rw [Bool.not_eq_true', contains_false_iff] at hkeep
  obtain ⟨p, hp, hpmem⟩ := (parentClosed_iff scales).mp hclosed id s hmem' hroot
  have hpD : p ∉ D := by
    intro hpin
    apply hkeep
    have hfix := buildCascadeDeleteSet_fix scales target
    have := cascadePass_fix_closed hfix id s p hmem' hp ((contains_iff _ _).mpr hpin)
    exact (contains_iff _ _).mp this
  obtain ⟨e, hemem, hekey⟩ := List.mem_map.mp hpmem
  refine ⟨p, hp, ?_⟩
  apply List.mem_map.mpr
  refine ⟨e, ?_, hekey⟩
  rw [removeScalesCascade, List.mem_filter]
  refine ⟨hemem, ?_⟩
  rw [Bool.not_eq_true', contains_false_iff, hekey]
  exact hpD

/-- Witness for C2: a root with child `a` and grandchild `b`; deleting `a`
cascades to `b` and leaves the root, which is still parent-closed. -/
theorem removeScalesCascade_preserves_parentClosed_witness :
    parentClosed
      (removeScalesCascade
        [("r", ⟨none, true⟩), ("a", ⟨some "r", false⟩), ("b", ⟨some "a", false⟩)]
        (buildCascadeDeleteSet
          [("r", ⟨none, true⟩), ("a", ⟨some "r", false⟩), ("b", ⟨some "a", false⟩)]
          "a")) = true :=
  removeScalesCascade_preserves_parentClosed
    [("r", ⟨none, true⟩), ("a", ⟨some "r", false⟩), ("b", ⟨some "a", false⟩)]
    "a" (by decide) ⟨some "r", false⟩ (by decide) (by decide)

-- ============================================================================
-- Root classification (C10)
-- ============================================================================

/-- **C10.** Root classification is disjunctive: `findRoots` lists exactly
the ids whose node has `is_root` true OR a non-truthy (absent/empty)
`parent_scale_id`; `isRoot` of `null`/`undefined` is `false`; a scale with
`is_root` false but no parent is reported as a root; and a collection can
report several roots at once (concrete four-node example: three roots). -/
theorem isRoot_findRoots_disjunctive :
    (∀ (scales : Scales) (id : String),
        id ∈ findRoots scales ↔
          ∃ s, (id, s) ∈ scales ∧ (s.is_root = true ∨ parentOf s = none))
    ∧ isRoot none = false
    ∧ (∀ s : Scale, s.is_root = false → parentOf s = none → isRoot (some s) = true)
    ∧ findRoots
        [("a", ⟨none, false⟩), ("b", ⟨some "", false⟩),
         ("c", ⟨some "a", true⟩), ("d", ⟨some "a", false⟩)] = ["a", "b", "c"] := by
  refine ⟨?_, rfl, ?_, by decide⟩
  · intro scales id
    induction scales with
    | nil => simp [findRoots]
    | cons hd rest ih =>
      obtain ⟨hId, hs⟩ := hd
      by_cases hcond : (hs.is_root || (parentOf hs).isNone) = true
      · rw [show findRoots ((hId, hs) :: rest) = hId :: findRoots rest by
          simp [findRoots, hcond]]
        constructor
        · intro h
          rcases List.mem_cons.mp h with rfl | h'
          · refine ⟨hs, List.mem_cons_self _ _, ?_⟩
            rw [Bool.or_eq_true, Option.isNone_iff_eq_none] at hcond
            exact hcond
          · obtain ⟨s, hmem, hor⟩ := ih.mp h'
            exact ⟨s, List.mem_cons_of_mem _ hmem, hor⟩
        · intro ⟨s, hmem, hor⟩
          rcases List.mem_cons.mp hmem with heq | hmem'
          · cases heq; exact List.mem_cons_self _ _
          · exact List.mem_cons_of_mem _ (ih.mpr ⟨s, hmem', hor⟩)
      · rw [show findRoots ((hId, hs) :: rest) = findRoots rest by
          simp only [findRoots]; rw [if_neg (by simpa using hcond)]]
        rw [ih]
        constructor
        · intro ⟨s, hmem, hor⟩
          exact ⟨s, List.mem_cons_of_mem _ hmem, hor⟩
        · intro ⟨s, hmem, hor⟩
          rcases List.mem_cons.mp hmem with heq | hmem'
          · exfalso
            cases heq
            rw [Bool.or_eq_true, Option.isNone_iff_eq_none] at hcond
            exact hcond hor
          · exact ⟨s, hmem', hor⟩
  · intro s h1 h2
    simp [isRoot, h2]

/-- Witness for C10: the flag-less, parent-less scale is classified root. -/
theorem isRoot_findRoots_disjunctive_witness :
    isRoot (some ⟨none, false⟩) = true :=
  isRoot_findRoots_disjunctive.2.2.1 ⟨none, false⟩ rfl rfl

-- ============================================================================
-- Delete orchestration (C3)
-- ============================================================================

/-- Result record of `flowEditorController.js` `prepareDelete`.  The JS
object carries `toDelete`/`count` only on the success path; `none` models
the absent field. -/
structure PrepareDeleteResult where
  canDelete : Bool
  error : Option String
  toDelete : Option (List String)
  count : Option Nat
deriving Repr, DecidableEq

/-- `flowEditorController.js` `prepareDelete`: guard on falsy id, missing
scale, then root protection — the cascade set is built only after all three
guards pass, so a refusal carries no cascade set. -/
def prepareDelete (scaleId : Option String) (scales : Scales) : PrepareDeleteResult :=
  match scaleId with
  | none => ⟨false, some "no_scale_id", none, none⟩
  | some id =>
    if id = "" then ⟨false, some "no_scale_id", none, none⟩
    else
      match mapGet scales id with
      | none => ⟨false, some "scale_not_found", none, none⟩
      | some scale =>
        if scale.is_root then ⟨false, some "root_protected", none, none⟩
        else
          let toDelete := buildCascadeDeleteSet scales id
          ⟨true, none, some toDelete, some toDelete.length⟩

/-- Result record of `flowController.js` `handleDeleteScale`.  `executed`
is the collection the returned `execute` closure would leave behind
(deleting every id of the cascade set); it is absent on refusal paths. -/
structure HandleDeleteResult where
  deleted : Bool
  count : Nat
  error : Option String
  toDelete : Option (List String)
  executed : Option Scales
deriving Repr, DecidableEq

/-- `flowController.js` `handleDeleteScale` (confirmation phase; the
`execute` closure is modelled by the `executed` field). -/
def handleDeleteScale (scaleId : Option String) (scales : Scales) : HandleDeleteResult :=
  match scaleId with
  | none => ⟨false, 0, none, none, none⟩
  | some id =>
    if id = "" then ⟨false, 0, none, none, none⟩
    else
      match mapGet scales id with
      | none => ⟨false, 0, none, none, none⟩
      | some scale =>
        if scale.is_root then ⟨false, 0, some "root_protected", none, none⟩
        else
          let toDelete := buildCascadeDeleteSet scales id
          ⟨false, toDelete.length, none, some toDelete,
            some (removeScalesCascade scales toDelete)⟩

/-- **C3.** For any collection and truthy id whose scale has `is_root`
true, both delete entry points refuse with error `root_protected`, carry
no cascade set (`toDelete = none` — the root check precedes the call to
`buildCascadeDeleteSet`), and expose no mutated collection (the refusal
record has no `executed` collection; both functions are pure reads). -/
theorem delete_root_protected (scales : Scales) (id : String) (s : Scale)
    (hid : id ≠ "") (hget : mapGet scales id = some s) (hroot : s.is_root = true) :
    prepareDelete (some id) scales =
        { canDelete := false, error := some "root_protected",
          toDelete := none, count := none }
    ∧ handleDeleteScale (some id) scales =
        { deleted := false, count := 0, error := some "root_protected",
          toDelete := none, executed := none } := by
  constructor
  · simp only [prepareDelete]
    rw [if_neg hid, hget]
    simp [hroot]
  · simp only [handleDeleteScale]
    rw [if_neg hid, hget]
    simp [hroot]

/-- Witness for C3: a one-node collection holding only the root. -/
theorem delete_root_protected_witness :
    prepareDelete (some "r") [("r", ⟨none, true⟩)] =
        { canDelete := false, error := some "root_protected",
          toDelete := none, count := none }
    ∧ handleDeleteScale (some "r") [("r", ⟨none, true⟩)] =
        { deleted := false, count := 0, error := some "root_protected",
          toDelete := none, executed := none } :=
  delete_root_protected [("r", ⟨none, true⟩)] "r" ⟨none, true⟩
    (by decide) (by decide) rfl

-- ============================================================================
-- Branch positioning (`src/layout/branchPositioning.js`) — C4
-- ============================================================================

/-- A canvas position. -/
structure Position where
  x : Int
  y : Int
deriving Repr, DecidableEq

/-- The slice of a parent scale read by `getNextBranchPosition`:
`position` (guarded by `!parentScale.position`) and `depth`
(read as `parentScale.depth || 0`). -/
structure ParentScale where
  position : Option Position
  depth : Option Int
deriving Repr, DecidableEq

/-- The `{ x, y, branch_index, depth }` record returned by
`getNextBranchPosition`. -/
structure BranchPosition where
  x : Int
  y : Int
  branch_index : Nat
  depth : Int
deriving Repr, DecidableEq

def HORIZONTAL_STEP : Int := 550
def VERTICAL_GAP : Int := 24
def ESTIMATED_HEIGHT : Int := 180
def ROW_HEIGHT : Int := ESTIMATED_HEIGHT + VERTICAL_GAP

/-- `branchPositioning.js` `getNextBranchPosition` with the default
(locked) layout constants. -/
def getNextBranchPosition (parentScale : Option ParentScale) (branch_index : Nat) :
    BranchPosition :=
  match parentScale with
  | none => { x := 100, y := 100, branch_index := 0, depth := 1 }
  | some parent =>
    match parent.position with
    | none => { x := 100, y := 100, branch_index := 0, depth := 1 }
    | some pos =>
      let depth := parent.depth.getD 0 + 1
      let baseX := pos.x + HORIZONTAL_STEP
      let layer : Int := ((branch_index / 2 : Nat) : Int) + 1
      let direction : Int := 2 * ((branch_index : Int) % 2) - 1
      let baseY := pos.y + direction * layer * ROW_HEIGHT
      { x := baseX, y := baseY, branch_index := branch_index, depth := depth }

/-- **C4.** For a parent with position `(x, y)` and depth `d`, branch index
`k` is placed at depth `d + 1`, `x + 550`, and
`y + direction · layer · 204` with `layer = ⌊k/2⌋ + 1` and `direction = -1`
for even `k`, `+1` for odd `k`; concretely, a parent at `(100, 250)` sends
indices 0, 1, 2 to `(650, 46)`, `(650, 454)`, `(650, -158)`. -/
theorem getNextBranchPosition_spec :
    (∀ (x y d : Int) (k : Nat),
      getNextBranchPosition (some ⟨some ⟨x, y⟩, some d⟩) k =
        { x := x + 550,
          y := y + (if k % 2 = 0 then (-1 : Int) else 1) * (((k / 2 : Nat) : Int) + 1) * 204,
          branch_index := k,
          depth := d + 1 })
    ∧ (getNextBranchPosition (some ⟨some ⟨100, 250⟩, some 0⟩) 0).x = 650
    ∧ (getNextBranchPosition (some ⟨some ⟨100, 250⟩, some 0⟩) 0).y = 46
    ∧ (getNextBranchPosition (some ⟨some ⟨100, 250⟩, some 0⟩) 1).x = 650
    ∧ (getNextBranchPosition (some ⟨some ⟨100, 250⟩, some 0⟩) 1).y = 454
    ∧ (getNextBranchPosition (some ⟨some ⟨100, 250⟩, some 0⟩) 2).x = 650
    ∧ (getNextBranchPosition (some ⟨some ⟨100, 250⟩, some 0⟩) 2).y = -158 := by
  refine ⟨?_, by decide, by decide, by decide, by decide, by decide, by decide⟩
  intro x y d k
  unfold getNextBranchPosition
  simp only [Option.getD_some, ROW_HEIGHT, ESTIMATED_HEIGHT, VERTICAL_GAP, HORIZONTAL_STEP]
  have hd : (2 * ((k : Int) % 2) - 1) = (if k % 2 = 0 then (-1 : Int) else 1) := by
    rcases Nat.mod_two_eq_zero_or_one k with h | h
    · rw [if_pos h]; omega
    · rw [if_neg (by omega)]; omega
  congr 1
  rw [hd]
  norm_num

-- ============================================================================
-- Dynamic JS values (for untrusted payload fields)
-- ============================================================================

/-- A JavaScript value as far as the validators observe one: primitive
values plus arrays (abstracted to their length — no validator inspects the
elements of a mistyped array). -/
inductive JsValue where
  | undefined
  | nullv
  | boolv (b : Bool)
  | num (n : Int)
  | str (s : String)
  | arr (n : Nat)
deriving Repr, DecidableEq

/-- JS truthiness (`NaN` excluded from the model). -/
def JsValue.truthy : JsValue → Bool
  | .undefined => false
  | .nullv => false
  | .boolv b => b
  | .num n => n != 0
  | .str s => s != ""
  | .arr _ => true

/-- `typeof v === 'string'`. -/
def JsValue.isString : JsValue → Bool
  | .str _ => true
  | _ => false

/-- `typeof v === 'number'`. -/
def JsValue.isNumber : JsValue → Bool
  | .num _ => true
  | _ => false

/-- `Array.isArray(v)`. -/
def JsValue.isArray : JsValue → Bool
  | .arr _ => true
  | _ => false

/-- `v && typeof v === 'string'` as one test: a non-empty string. -/
def isNonEmptyString : JsValue → Bool
  | .str s => s != ""
  | _ => false

/-- Template-literal interpolation (only ever reached on already-validated
string values in the modelled code paths). -/
def jsDisplay : JsValue → String
  | .undefined => "undefined"
  | .nullv => "null"
  | .boolv b => if b then "true" else "false"
  | .num n => toString n
  | .str s => s
  | .arr _ => ""

-- ============================================================================
-- Adaptation payloads and source scales
-- ============================================================================

/-- An item of a source scale, as read by `expandWithRubrics`
(`item_id`, `baseline_rubric`; both may be absent on malformed data). -/
structure SourceItem where
  item_id : Option String
  baseline_rubric : Option (List String)
deriving Repr, DecidableEq

/-- A dimension of a source scale. -/
structure SourceDim where
  items : List SourceItem
deriving Repr, DecidableEq

/-- The slice of a source scale read by the adaptation validator and the
item expander. -/
structure SourceScale where
  dimensions : List SourceDim
deriving Repr, DecidableEq

/-- An item of the untrusted adaptation payload: `text` is dynamic;
`current_rubric` is absent (`none`) or a list of tag strings. -/
structure AdaptItem where
  text : JsValue
  current_rubric : Option (List String)
deriving Repr, DecidableEq

/-- A dimension of the untrusted adaptation payload: `name` is dynamic;
`items` is absent/mistyped (`none`) or a list. -/
structure AdaptDim where
  name : JsValue
  items : Option (List AdaptItem)
deriving Repr, DecidableEq

/-- The untrusted adaptation payload (`gptResult`): an optional `error`
field plus the schema fields. -/
structure AdaptResult where
  error : Option String
  scale_name : JsValue
  dimensions : Option (List AdaptDim)
deriving Repr, DecidableEq

/-- The `{ valid, error?, warnings? }` record returned by
`validateAdaptScaleResponse`. -/
structure ValidationResult where
  valid : Bool
  error : Option String
  warnings : Option (List String)
deriving Repr, DecidableEq

/-- The inner `for (let j ...)` item loop of `validateAdaptScaleResponse`:
first field-level diagnostic, if any. -/
def validateItems (dimName : String) : List AdaptItem → Nat → Option String
  | [], _ => none
  | it :: rest, j =>
      if !isNonEmptyString it.text then
        some ("Item " ++ toString (j + 1) ++ " in \"" ++ dimName ++ "\" missing text")
      else validateItems dimName rest (j + 1)

/-- The outer `for (let i ...)` dimension loop of
`validateAdaptScaleResponse`: first field-level diagnostic, if any. -/
def validateDims : List AdaptDim → Nat → Option String
  | [], _ => none
  | d :: rest, i =>
      if !isNonEmptyString d.name then
        some ("Dimension " ++ toString (i + 1) ++ " missing name")
      else
        match d.items with
        | none => some ("Dimension \"" ++ jsDisplay d.name ++ "\" has no items")
        | some its =>
          if its.isEmpty then
            some ("Dimension \"" ++ jsDisplay d.name ++ "\" has no items")
          else
            match validateItems (jsDisplay d.name) its 0 with
            | some e => some e
            | none => validateDims rest (i + 1)

/-- The structural-drift warnings of `validateAdaptScaleResponse`:
per-dimension item-count comparison over the common prefix
(`i < Math.min(...)`, modelled by `zip`).  At this point validation has
passed, so every `items` is a non-empty list (`getD []` is never the
fallback on reachable inputs). -/
def itemCountWarnings : List (AdaptDim × SourceDim) → List String
  | [] => []
  | (g, s) :: rest =>
      let gl := (g.items.getD []).length
      if gl ≠ s.items.length then
        ("Item count mismatch in dimension \"" ++ jsDisplay g.name ++ "\": expected="
            ++ toString s.items.length ++ ", got=" ++ toString gl)
          :: itemCountWarnings rest
      else itemCountWarnings rest

/-- Dimension-count warning plus per-dimension item-count warnings. -/
def structureWarnings (ds : List AdaptDim) (src : SourceScale) : List String :=
  (if ds.length ≠ src.dimensions.length then
    ["Dimension count mismatch: expected=" ++ toString src.dimensions.length
        ++ ", got=" ++ toString ds.length]
  else [])
  ++ itemCountWarnings (ds.zip src.dimensions)

/-- `scaleGraph.js` (adapter part) `validateAdaptScaleResponse`. -/
def validateAdaptScaleResponse (gptResult : Option AdaptResult)
    (sourceScale : Option SourceScale) : ValidationResult :=
  match gptResult with
  | none => { valid := false, error := some "No response", warnings := none }
  | some g =>
    if (match g.error with | some e => e != "" | none => false) then
      { valid := false, error := g.error, warnings := none }
    else if !isNonEmptyString g.scale_name then
      { valid := false, error := some "Missing scale_name", warnings := none }
    else
      match g.dimensions with
      | none => { valid := false, error := some "Missing or empty dimensions", warnings := none }
      | some ds =>
        if ds.isEmpty then
          { valid := false, error := some "Missing or empty dimensions", warnings := none }
        else
          match validateDims ds 0 with
          | some e => { valid := false, error := some e, warnings := none }
          | none =>
            let ws := match sourceScale with
              | some src => structureWarnings ds src
              | none => []
            { valid := true, error := none,
              warnings := if ws.isEmpty then none else some ws }

-- ============================================================================
-- Item expansion (`expandWithRubrics`)
-- ============================================================================

/-- A dimension of the adaptation payload after validation: `items` is a
genuine list (on the reachable path `expandWithRubrics` dereferences
`dim.items.map` directly). -/
structure GDim where
  name : JsValue
  items : List AdaptItem
deriving Repr, DecidableEq

/-- A fully assembled item produced by `expandWithRubrics`. -/
structure FullItem where
  item_id : String
  origin_item_id : String
  text : JsValue
  baseline_rubric : List String
  current_rubric : List String
  dimension : JsValue
  rubric_source : String
deriving Repr, DecidableEq

/-- A fully assembled dimension produced by `expandWithRubrics`. -/
structure FullDim where
  name : JsValue
  items : List FullItem
deriving Repr, DecidableEq

/-- The per-item body of `expandWithRubrics`: app-injected ids and rubric
fields.  `sourceItem?.baseline_rubric || ['Mock Rubric']` and
`sourceItem?.item_id || 'unknown'` follow JS truthiness (`""` is falsy, an
empty array is truthy); `item.current_rubric ? 'gpt' : 'parent'` tests the
presence of the field, not its non-emptiness. -/
def expandItem (scaleId : String) (dimName : JsValue) (counter : Nat)
    (item : AdaptItem) (sourceItem : Option SourceItem) : FullItem :=
  let baseline_rubric :=
    match sourceItem with
    | some si => match si.baseline_rubric with
      | some l => l
      | none => ["Mock Rubric"]
    | none => ["Mock Rubric"]
  let current_rubric :=
    match item.current_rubric with
    | some l => if l.length > 0 then l else baseline_rubric
    | none => baseline_rubric
  { item_id := scaleId ++ "-item-" ++ toString counter
    origin_item_id :=
      match sourceItem with
      | some si => match si.item_id with
        | some s => if s = "" then "unknown" else s
        | none => "unknown"
      | none => "unknown"
    text := item.text
    baseline_rubric := baseline_rubric
    current_rubric := current_rubric
    dimension := dimName
    rubric_source := if item.current_rubric.isSome then "gpt" else "parent" }

/-- `dim.items.map((item, itemIndex) => …)` with the running item counter:
the source item is looked up positionally (`sourceItems[itemIndex]`). -/
def expandItems (scaleId : String) (dimName : JsValue) :
    List AdaptItem → List SourceItem → Nat → List FullItem
  | [], _, _ => []
  | it :: rest, srcs, c =>
      expandItem scaleId dimName c it srcs.head? ::
        expandItems scaleId dimName rest srcs.tail (c + 1)

/-- `gptDimensions.map((dim, dimIndex) => …)` with the counter threaded
across dimensions (never reset); source dimensions are looked up
positionally, `sourceDimensions[dimIndex]?.items || []`. -/
def expandDims (scaleId : String) :
    List GDim → List SourceDim → Nat → List FullDim
  | [], _, _ => []
  | d :: rest, srcs, c =>
      { name := d.name,
        items := expandItems scaleId d.name d.items
          ((srcs.head?.map SourceDim.items).getD []) c } ::
        expandDims scaleId rest srcs.tail (c + d.items.length)

/-- `scaleGraph.js` (adapter part) `expandWithRubrics`: `itemCounter`
starts at 1. -/
def expandWithRubrics (gptDimensions : List GDim) (scaleId : String)
    (sourceDimensions : List SourceDim) : List FullDim :=
  expandDims scaleId gptDimensions sourceDimensions 1

-- ============================================================================
-- C5: the validator against the spec's required shape
-- ============================================================================

/-- Spec-side shape of one dimension (from the claim's words): `name` a
non-empty string, `items` a non-empty list whose items all carry a
non-empty `text`. -/
def dimShapeOK (d : AdaptDim) : Bool :=
  isNonEmptyString d.name &&
    (match d.items with
     | some its => !its.isEmpty && its.all (fun it => isNonEmptyString it.text)
     | none => false)

/-- Spec-side required shape of the whole payload (from the claim's
words): `scale_name` a non-empty string and `dimensions` a non-empty list
of well-shaped dimensions. -/
def requiredShapeOK (g : AdaptResult) : Bool :=
  isNonEmptyString g.scale_name &&
    (match g.dimensions with
     | some ds => !ds.isEmpty && ds.all dimShapeOK
     | none => false)

/-- Spec-side structural drift (from the claim's words): the dimension
count differs from the source's, or some positionally paired dimension's
item count differs. -/
def structureMismatch (ds : List AdaptDim) (src : SourceScale) : Bool :=
  (ds.length != src.dimensions.length) ||
    (ds.zip src.dimensions).any
      (fun gs => (gs.1.items.getD []).length != gs.2.items.length)

theorem validateItems_eq_none_iff (nm : String) :
    ∀ (its : List AdaptItem) (j : Nat),
      validateItems nm its j = none ↔ ∀ it ∈ its, isNonEmptyString it.text = true := by
  intro its
  induction its with
  | nil => intro j; simp [validateItems]
  | cons it rest ih =>
    intro j
    by_cases ht : isNonEmptyString it.text = true
    · rw [show validateItems nm (it :: rest) j = validateItems nm rest (j + 1) by
        simp [validateItems, ht]]
      rw [ih (j + 1)]
      constructor
      · intro h x hx
        rcases List.mem_cons.mp hx with rfl | hx'
        · exact ht
        · exact h x hx'
      · intro h x hx
        exact h x (List.mem_cons_of_mem _ hx)
    · rw [show validateItems nm (it :: rest) j =
          some ("Item " ++ toString (j + 1) ++ " in \"" ++ nm ++ "\" missing text") by
        simp only [validateItems]; rw [if_pos (by simpa using ht)]]
      simp only [reduceCtorEq, false_iff, not_forall]
      exact ⟨it, List.mem_cons_self _ _, ht⟩

theorem validateDims_eq_none_iff :
    ∀ (ds : List AdaptDim) (i : Nat),
      validateDims ds i = none ↔ ∀ d ∈ ds, dimShapeOK d = true := by
  intro ds
  induction ds with
  | nil => intro i; simp [validateDims]
  | cons d rest ih =>
    intro i
    obtain ⟨dname, ditems⟩ := d
    by_cases hn : isNonEmptyString dname = true
    · cases ditems with
      | none =>
        rw [show validateDims (⟨dname, none⟩ :: rest) i =
            some ("Dimension \"" ++ jsDisplay dname ++ "\" has no items") by
          simp [validateDims, hn]]
        simp only [reduceCtorEq, false_iff, not_forall]
        exact ⟨⟨dname, none⟩, List.mem_cons_self _ _, by simp [dimShapeOK]⟩
      | some its =>
        by_cases hemp : its.isEmpty = true
        · rw [show validateDims (⟨dname, some its⟩ :: rest) i =
              some ("Dimension \"" ++ jsDisplay dname ++ "\" has no items") by
            simp [validateDims, hn, hemp]]
          simp only [reduceCtorEq, false_iff, not_forall]
          exact ⟨⟨dname, some its⟩, List.mem_cons_self _ _, by simp [dimShapeOK, hemp]⟩
        · cases hvi : validateItems (jsDisplay dname) its 0 with
          | some e =>
            rw [show validateDims (⟨dname, some its⟩ :: rest) i = some e by
              simp [validateDims, hn, hemp, hvi]]
            simp only [reduceCtorEq, false_iff, not_forall]
            refine ⟨⟨dname, some its⟩, List.mem_cons_self _ _, ?_⟩
            intro hok
            rw [dimShapeOK] at hok
            simp only [Bool.and_eq_true, List.all_eq_true] at hok
            have := (validateItems_eq_none_iff (jsDisplay dname) its 0).mpr hok.2.2
            rw [hvi] at this
            exact Option.some_ne_none e this
          | none =>
            rw [show validateDims (⟨dname, some its⟩ :: rest) i = validateDims rest (i + 1) by
              simp [validateDims, hn, hemp, hvi]]
            rw [ih (i + 1)]
            constructor
            · intro h x hx
              rcases List.mem_cons.mp hx with rfl | hx'
              · rw [dimShapeOK]
                simp only [Bool.and_eq_true, List.all_eq_true]
                exact ⟨hn, by simpa using hemp,
                  (validateItems_eq_none_iff (jsDisplay dname) its 0).mp hvi⟩
              · exact h x hx'
            · intro h x hx
              exact h x (List.mem_cons_of_mem _ hx)
    · rw [show validateDims (⟨dname, ditems⟩ :: rest) i =
          some ("Dimension " ++ toString (i + 1) ++ " missing name") by
        simp only [validateDims]; rw [if_pos (by simpa using hn)]]
      simp only [reduceCtorEq, false_iff, not_forall]
      exact ⟨⟨dname, ditems⟩, List.mem_cons_self _ _, by simp [dimShapeOK, hn]⟩

theorem itemCountWarnings_eq_nil_iff :
    ∀ l : List (AdaptDim × SourceDim),
      itemCountWarnings l = [] ↔
        ∀ gs ∈ l, (gs.1.items.getD []).length = gs.2.items.length := by
  intro l
  induction l with
  | nil => simp [itemCountWarnings]
  | cons gs rest ih =>
    obtain ⟨g, s⟩ := gs
    by_cases h : (g.items.getD []).length = s.items.length
    · rw [show itemCountWarnings ((g, s) :: rest) = itemCountWarnings rest by
        simp only [itemCountWarnings]; rw [if_neg (by simpa using h)]]
      rw [ih]
      constructor
      · intro hall x hx
        rcases List.mem_cons.mp hx with rfl | hx'
        · exact h
        · exact hall x hx'
      · intro hall x hx
        exact hall x (List.mem_cons_of_mem _ hx)
    · rw [show itemCountWarnings ((g, s) :: rest) =
          ("Item count mismatch in dimension \"" ++ jsDisplay g.name ++ "\": expected="
            ++ toString s.items.length ++ ", got=" ++ toString (g.items.getD []).length)
            :: itemCountWarnings rest by
        simp only [itemCountWarnings]; rw [if_pos (by simpa using h)]]
      simp only [reduceCtorEq, false_iff, not_forall]
      exact ⟨(g, s), List.mem_cons_self _ _, h⟩

theorem structureWarnings_eq_nil_iff (ds : List AdaptDim) (src : SourceScale) :
    structureWarnings ds src = [] ↔ structureMismatch ds src = false := by
  rw [structureWarnings, structureMismatch, List.append_eq_nil]
  rw [Bool.or_eq_false_iff]
  constructor
  · intro ⟨h1, h2⟩
    constructor
    · by_cases hlen : ds.length = src.dimensions.length
      · simp [hlen]
      · rw [if_pos hlen] at h1; simp at h1
    · rw [List.any_eq_false]
      intro gs hgs
      have := (itemCountWarnings_eq_nil_iff _).mp h2 gs hgs
      simp [this]
  · intro ⟨h1, h2⟩
    constructor
    · have hlen : ds.length = src.dimensions.length := by
        by_contra hne
        simp [bne_iff_ne, hne] at h1
      rw [if_neg (by simp [hlen])]
    · rw [itemCountWarnings_eq_nil_iff]
      intro gs hgs
      rw [List.any_eq_false] at h2
      have := h2 gs hgs
      simpa [bne_iff_ne] using this

/-- **C5.** With a source scale supplied (and the payload carrying no
transport `error` field), the adaptation validator accepts exactly the
payloads matching the required shape (`scale_name` non-empty string;
`dimensions` a non-empty list of dimensions with non-empty-string `name`,
non-empty `items`, every item a non-empty-string `text`); on any shape
violation it returns `valid = false` with a diagnostic; on success it
attaches warnings exactly when the dimension count or some positionally
paired item count differs from the source scale's structure. -/
theorem validateAdaptScaleResponse_spec (g : AdaptResult) (src : SourceScale)
    (herr : g.error = none) :
    ((validateAdaptScaleResponse (some g) (some src)).valid = true ↔
        requiredShapeOK g = true)
    ∧ (requiredShapeOK g = false →
        (validateAdaptScaleResponse (some g) (some src)).valid = false
        ∧ ((validateAdaptScaleResponse (some g) (some src)).error).isSome = true)
    ∧ (requiredShapeOK g = true →
        ((validateAdaptScaleResponse (some g) (some src)).warnings ≠ none ↔
          structureMismatch (g.dimensions.getD []) src = true)) := by
  obtain ⟨gerr, gname, gdims⟩ := g
  dsimp only at herr
  subst herr
  by_cases hname : isNonEmptyString gname = true
  · cases gdims with
    | none =>
      simp [validateAdaptScaleResponse, requiredShapeOK, hname]
    | some ds =>
      by_cases hemp : ds.isEmpty = true
      · simp [validateAdaptScaleResponse, requiredShapeOK, hname, hemp]
      · cases hvd : validateDims ds 0 with
        | some e =>
          have hnotall : ds.all dimShapeOK = false := by
            by_contra hne
            rw [Bool.not_eq_false, List.all_eq_true] at hne
            have := (validateDims_eq_none_iff ds 0).mpr hne
            rw [hvd] at this
            exact Option.some_ne_none e this
          simp [validateAdaptScaleResponse, requiredShapeOK, hname, hemp, hvd, hnotall]
        | none =>
          have hall : ds.all dimShapeOK = true :=
            List.all_eq_true.mpr ((validateDims_eq_none_iff ds 0).mp hvd)
          by_cases hws : (structureWarnings ds src).isEmpty = true
          · have hmm : structureMismatch ds src = false :=
              (structureWarnings_eq_nil_iff ds src).mp (by simpa using hws)
            simp [validateAdaptScaleResponse, requiredShapeOK, hname, hemp, hvd,
              hall, hws, hmm]
          · have hmm : structureMismatch ds src = true := by
              by_contra hne
              rw [Bool.not_eq_true] at hne
              have := (structureWarnings_eq_nil_iff ds src).mpr hne
              rw [List.isEmpty_iff] at hws
              exact hws this
            simp [validateAdaptScaleResponse, requiredShapeOK, hname, hemp, hvd,
              hall, hws, hmm]
  · simp [validateAdaptScaleResponse, requiredShapeOK, hname]

/-- Witness for C5: a well-shaped two-dimension payload against a source
with one dimension of two items — valid, with warnings present. -/
theorem validateAdaptScaleResponse_spec_witness :
    ((validateAdaptScaleResponse
        (some { error := none, scale_name := .str "Adapted",
                dimensions := some
                  [{ name := .str "D1", items := some [{ text := .str "t1", current_rubric := none }] },
                   { name := .str "D2", items := some [{ text := .str "t2", current_rubric := none }] }] })
        (some { dimensions := [{ items := [{ item_id := some "i1", baseline_rubric := some ["B"] },
                                           { item_id := some "i2", baseline_rubric := some ["B"] }] }] })).valid
      = true) := by
  have h := validateAdaptScaleResponse_spec
    { error := none, scale_name := .str "Adapted",
      dimensions := some
        [{ name := .str "D1", items := some [{ text := .str "t1", current_rubric := none }] },
         { name := .str "D2", items := some [{ text := .str "t2", current_rubric := none }] }] }
    { dimensions := [{ items := [{ item_id := some "i1", baseline_rubric := some ["B"] },
                                 { item_id := some "i2", baseline_rubric := some ["B"] }] }] }
    rfl
  exact h.1.mpr (by decide)

-- ============================================================================
-- C6 / C7: positional structure of `expandWithRubrics`
-- ============================================================================

/-- Number of adaptation items in the dimensions strictly before index
`dIdx` — what the running `itemCounter` has consumed when a dimension
starts. -/
def itemsBefore (gdims : List GDim) (dIdx : Nat) : Nat :=
  ((gdims.take dIdx).map (fun d => d.items.length)).sum

theorem expandItems_get (scaleId : String) (dimName : JsValue) :
    ∀ (items : List AdaptItem) (srcs : List SourceItem) (c j : Nat),
      (expandItems scaleId dimName items srcs c).get? j =
        (items.get? j).map
          (fun it => expandItem scaleId dimName (c + j) it (srcs.get? j)) := by
  intro items
  induction items with
  | nil => intro srcs c j; simp [expandItems]
  | cons it rest ih =>
    intro srcs c j
    cases j with
    | zero =>
      cases srcs <;> simp [expandItems]
    | succ n =>
      have hc : c + 1 + n = c + (n + 1) := by omega
      cases srcs with
      | nil =>
        simp only [expandItems, List.tail_nil, List.get?_cons_succ]
        rw [ih [] (c + 1) n, hc]
        simp
      | cons s ss =>
        simp only [expandItems, List.tail_cons, List.get?_cons_succ]
        rw [ih ss (c + 1) n, hc]

theorem expandDims_get (scaleId : String) :
    ∀ (gdims : List GDim) (srcs : List SourceDim) (c dIdx : Nat),
      (expandDims scaleId gdims srcs c).get? dIdx =
        (gdims.get? dIdx).map
          (fun d =>
            { name := d.name,
              items := expandItems scaleId d.name d.items
                (((srcs.get? dIdx).map SourceDim.items).getD [])
                (c + itemsBefore gdims dIdx) }) := by
  intro gdims
  induction gdims with
  | nil => intro srcs c dIdx; simp [expandDims]
  | cons d rest ih =>
    intro srcs c dIdx
    cases dIdx with
    | zero =>
      cases srcs <;> simp [expandDims, itemsBefore]
    | succ n =>
      have hc : c + d.items.length + itemsBefore rest n
          = c + itemsBefore (d :: rest) (n + 1) := by
        simp only [itemsBefore, List.take_succ_cons, List.map_cons, List.sum_cons]
        omega
      cases srcs with
      | nil =>
        simp only [expandDims, List.tail_nil, List.get?_cons_succ]
        rw [ih [] (c + d.items.length) n, hc]
        simp
      | cons s ss =>
        simp only [expandDims, List.tail_cons, List.get?_cons_succ]
        rw [ih ss (c + d.items.length) n, hc]

/-- Extraction: the item at overall position `(dIdx, iIdx)` of the
assembled node is `expandItem` applied to the matching adaptation item,
the running counter value, and the positional source-item lookup. -/
theorem expandWithRubrics_item (gdims : List GDim) (scaleId : String)
    (srcDims : List SourceDim) (dIdx iIdx : Nat) (fd : FullDim) (fit : FullItem)
    (hfd : (expandWithRubrics gdims scaleId srcDims).get? dIdx = some fd)
    (hfit : fd.items.get? iIdx = some fit) :
    ∃ d it, gdims.get? dIdx = some d ∧ d.items.get? iIdx = some it ∧
      fit = expandItem scaleId d.name (1 + itemsBefore gdims dIdx + iIdx) it
        ((srcDims.get? dIdx).bind (fun sd => sd.items.get? iIdx)) := by
  rw [expandWithRubrics, expandDims_get] at hfd
  cases hd : gdims.get? dIdx with
  | none => rw [hd] at hfd; simp at hfd
  | some d =>
    rw [hd] at hfd
    simp only [Option.map_some', Option.some.injEq] at hfd
    subst hfd
    rw [expandItems_get] at hfit
    cases hit : d.items.get? iIdx with
    | none => rw [hit] at hfit; simp at hfit
    | some it =>
      rw [hit] at hfit
      simp only [Option.map_some', Option.some.injEq] at hfit
      refine ⟨d, it, rfl, hit, ?_⟩
      rw [← hfit]
      congr 1
      cases hsd : srcDims.get? dIdx with
      | none => simp
      | some sd => simp

/-- **C7.** The item at dimension `dIdx`, position `iIdx` of an assembled
node carries `item_id = "{scaleId}-item-{n}"` with `n` the 1-based overall
item number (never reset at dimension boundaries), and `origin_item_id`
equal to the positionally corresponding source item's `item_id`
(non-empty by hypothesis), or the literal `"unknown"` when the adaptation
has more items than the source at that position. -/
theorem expandWithRubrics_ids (gdims : List GDim) (scaleId : String)
    (srcDims : List SourceDim) (dIdx iIdx : Nat) (fd : FullDim) (fit : FullItem)
    (hfd : (expandWithRubrics gdims scaleId srcDims).get? dIdx = some fd)
    (hfit : fd.items.get? iIdx = some fit) :
    fit.item_id = scaleId ++ "-item-" ++ toString (1 + itemsBefore gdims dIdx + iIdx)
    ∧ ((srcDims.get? dIdx).bind (fun sd => sd.items.get? iIdx) = none →
        fit.origin_item_id = "unknown")
    ∧ (∀ si s, (srcDims.get? dIdx).bind (fun sd => sd.items.get? iIdx) = some si →
        si.item_id = some s → s ≠ "" → fit.origin_item_id = s) := by
  obtain ⟨d, it, hd, hit, hfiteq⟩ :=
    expandWithRubrics_item gdims scaleId srcDims dIdx iIdx fd fit hfd hfit
  subst hfiteq
  refine ⟨rfl, ?_, ?_⟩
  · intro hnone
    rw [hnone]
    rfl
  · intro si s hsome hid hne
    rw [hsome]
    simp [expandItem, hid, hne]

/-- Witness for C7: two dimensions, one item each; the second dimension's
item is numbered 2 and the source has no matching item there. -/
theorem expandWithRubrics_ids_witness :
    ({ item_id := "new-item-2", origin_item_id := "unknown", text := .str "t2",
       baseline_rubric := ["Mock Rubric"], current_rubric := ["Mock Rubric"],
       dimension := .str "D2", rubric_source := "parent" } : FullItem).item_id
      = "new" ++ "-item-" ++ toString (1 + itemsBefore
          [{ name := .str "D1", items := [{ text := .str "t1", current_rubric := none }] },
           { name := .str "D2", items := [{ text := .str "t2", current_rubric := none }] }] 1 + 0) :=
  (expandWithRubrics_ids
    [{ name := .str "D1", items := [{ text := .str "t1", current_rubric := none }] },
     { name := .str "D2", items := [{ text := .str "t2", current_rubric := none }] }]
    "new"
    [{ items := [{ item_id := some "src-1", baseline_rubric := some ["B"] }] }]
    1 0 _ _ rfl rfl).1

/-- Counterexample to C6 as stated: an adaptation item supplying an
**empty** `current_rubric` list.  `[]` is truthy in JavaScript, so the
assembled item falls back to the baseline rubric yet is marked `"gpt"`
(the externally-generated marker), not `"parent"` (inherited-from-parent)
as the claim requires. -/
theorem expandWithRubrics_emptyRubric_counterexample :
    (expandWithRubrics
        [{ name := .str "D", items := [{ text := .str "t", current_rubric := some [] }] }]
        "new"
        [{ items := [{ item_id := some "src-item-1", baseline_rubric := some ["B"] }] }])
      = [{ name := .str "D",
           items := [{ item_id := "new-item-1", origin_item_id := "src-item-1",
                       text := .str "t", baseline_rubric := ["B"], current_rubric := ["B"],
                       dimension := .str "D", rubric_source := "gpt" }] }]
    ∧ "gpt" ≠ "parent" :=
  ⟨rfl, by decide⟩

/-- **C6 (amended).** For an item with a positionally corresponding source
item carrying `baseline_rubric = b`: omitting `current_rubric` yields
`current_rubric = b` with marker `"parent"`; supplying a **non-empty** tag
list `l` yields `current_rubric = l` with marker `"gpt"`; but supplying an
**empty** list yields the fallback `current_rubric = b` while the marker
is `"gpt"` (the field was present, hence truthy in JS). -/
theorem expandWithRubrics_rubric_amended (gdims : List GDim) (scaleId : String)
    (srcDims : List SourceDim) (dIdx iIdx : Nat) (fd : FullDim) (fit : FullItem)
    (git : AdaptItem) (si : SourceItem) (b : List String)
    (hfd : (expandWithRubrics gdims scaleId srcDims).get? dIdx = some fd)
    (hfit : fd.items.get? iIdx = some fit)
    (hgit : (gdims.get? dIdx).bind (fun d => d.items.get? iIdx) = some git)
    (hsi : (srcDims.get? dIdx).bind (fun sd => sd.items.get? iIdx) = some si)
    (hb : si.baseline_rubric = some b) :
    (git.current_rubric = none →
      fit.current_rubric = b ∧ fit.rubric_source = "parent")
    ∧ (git.current_rubric = some [] →
      fit.current_rubric = b ∧ fit.rubric_source = "gpt")
    ∧ (∀ l, git.current_rubric = some l → l ≠ [] →
      fit.current_rubric = l ∧ fit.rubric_source = "gpt") := by
  obtain ⟨d, it, hd, hit, hfiteq⟩ :=
    expandWithRubrics_item gdims scaleId srcDims dIdx iIdx fd fit hfd hfit
  rw [hd] at hgit
  rw [Option.some_bind] at hgit
  rw [hit] at hgit
  obtain rfl : it = git := by simpa using hgit
  subst hfiteq
  rw [hsi]
  refine ⟨?_, ?_, ?_⟩
  · intro hn
    simp [expandItem, hn, hb]
  · intro hn
    simp [expandItem, hn, hb]
  · intro l hl hlne
    have hlen : l.length > 0 := List.length_pos.mpr hlne
    constructor
    · simp [expandItem, hl, hlen]
    · simp [expandItem, hl]

/-- Witness for the amended C6, exercising all three branches on one
collection: three items — rubric omitted, empty, and non-empty. -/
theorem expandWithRubrics_rubric_amended_witness :
    (({ item_id := "n-item-1", origin_item_id := "s1", text := .str "t1",
        baseline_rubric := ["B1"], current_rubric := ["B1"],
        dimension := .str "D", rubric_source := "parent" } : FullItem).current_rubric = ["B1"]
      ∧ ({ item_id := "n-item-1", origin_item_id := "s1", text := .str "t1",
           baseline_rubric := ["B1"], current_rubric := ["B1"],
           dimension := .str "D", rubric_source := "parent" } : FullItem).rubric_source
        = "parent") :=
  (expandWithRubrics_rubric_amended
    [{ name := .str "D", items := [{ text := .str "t1", current_rubric := none }] }]
    "n"
    [{ items := [{ item_id := some "s1", baseline_rubric := some ["B1"] }] }]
    0 0
    ({ name := .str "D",
       items := [{ item_id := "n-item-1", origin_item_id := "s1", text := .str "t1",
                   baseline_rubric := ["B1"], current_rubric := ["B1"],
                   dimension := .str "D", rubric_source := "parent" }] } : FullDim)
    ({ item_id := "n-item-1", origin_item_id := "s1", text := .str "t1",
       baseline_rubric := ["B1"], current_rubric := ["B1"],
       dimension := .str "D", rubric_source := "parent" } : FullItem)
    ({ text := .str "t1", current_rubric := none } : AdaptItem)
    ({ item_id := some "s1", baseline_rubric := some ["B1"] } : SourceItem)
    ["B1"]
    rfl rfl rfl rfl rfl).1 rfl

-- ============================================================================
-- Scale store (`src/state/scaleStore.js`, `src/utils/invariants.js`) — C8
-- ============================================================================

/-- `invariants.js` `DEV` flag: strict (invariant-checking) mode. -/
def DEV : Bool := true

/-- `invariants.js` `assert`: in DEV mode a violated condition throws,
modelled by `Except.error`. -/
def assert (condition : Bool) (message : String) : Except String Unit :=
  if DEV && !condition then .error ("[Invariant Violated] " ++ message) else pure ()

/-- The position object of a store payload, with dynamic field values. -/
structure RawPos where
  x : JsValue
  y : JsValue
deriving Repr, DecidableEq

/-- A store payload as `validateScale` / `validateBranchedScale` /
`addScale` observe it: dynamically typed fields (`JsValue.undefined`
models an absent field; `position` is `none` when absent/falsy). -/
structure RawScale where
  scale_id : JsValue
  scale_name : JsValue
  dimensions : JsValue
  position : Option RawPos
  is_root : Bool
  parent_scale_id : JsValue
  branch_index : JsValue
  positionLocked : JsValue
deriving Repr, DecidableEq

/-- `invariants.js` `validateScale` (the argument is `none` for a
`null`/non-object value). -/
def validateScale (scale : Option RawScale) : Except String Unit :=
  if !DEV then pure ()
  else
    match scale with
    | none => assert false "Scale must be an object"
    | some s =>
      (assert (isNonEmptyString s.scale_id) "Scale must have scale_id").bind fun _ =>
      (assert s.scale_name.isString "Scale must have scale_name").bind fun _ =>
      (assert s.dimensions.isArray "Scale must have dimensions array").bind fun _ =>
      assert
        (match s.position with
         | some p => p.x.isNumber && p.y.isNumber
         | none => false)
        "Scale must have position \x7bx, y\x7d"

/-- `invariants.js` `validateBranchedScale`. -/
def validateBranchedScale (scale : RawScale) : Except String Unit :=
  if !DEV then pure ()
  else if scale.is_root then pure ()
  else
    (assert scale.parent_scale_id.isString
      "Non-root scale must have parent_scale_id").bind fun _ =>
    (assert
      (match scale.branch_index with
       | .num n => decide (0 ≤ n)
       | _ => false)
      "Branched scale must have non-negative branch_index").bind fun _ =>
    assert
      (match scale.positionLocked with
       | .boolv true => true
       | _ => false)
      "Branched scale must have positionLocked=true"

/-- The store's backing Map. -/
abbrev RawStore := List (String × RawScale)

/-- `Map.set`: replace the value in place when the key exists, else
append. -/
def mapSet (store : RawStore) (k : String) (v : RawScale) : RawStore :=
  match store with
  | [] => [(k, v)]
  | (k', v') :: rest => if k' = k then (k, v) :: rest else (k', v') :: mapSet rest k v

/-- The key used by `_scales.set(scale.scale_id, scale)` (validation
guarantees a string key on the reachable success path). -/
def jsKey : JsValue → String
  | .str s => s
  | _ => ""

/-- `scaleStore.js` `addScale` in strict mode (`window.Invariants`
present, `DEV = true`): an invariant throw propagates before the
`Map.set`, leaving the store unchanged — modelled by returning
`Except.error` with no new store. -/
def addScale (store : RawStore) (scale : RawScale) : Except String RawStore :=
  (validateScale (some scale)).bind fun _ =>
  (if !scale.is_root then validateBranchedScale scale else pure ()).bind fun _ =>
  pure (mapSet store (jsKey scale.scale_id) scale)

/-- **C8.** In strict mode, adding a payload whose `dimensions` field is
absent or not a list (the earlier `scale_id`/`scale_name` checks passing)
is rejected: `addScale` surfaces exactly the invariant diagnostic naming
`dimensions` — which decomposes around the literal substring
`"dimensions"`, so it is field-specific, not generic — and never returns
a store, so nothing is inserted. -/
theorem addScale_missing_dimensions (store : RawStore) (s : RawScale)
    (hid : isNonEmptyString s.scale_id = true)
    (hname : s.scale_name.isString = true)
    (hdims : s.dimensions.isArray = false) :
    addScale store s = .error "[Invariant Violated] Scale must have dimensions array"
    ∧ "[Invariant Violated] Scale must have dimensions array"
        = "[Invariant Violated] Scale must have " ++ "dimensions" ++ " array"
    ∧ ∀ store2, addScale store s ≠ .ok store2 := by
  have hrun : addScale store s
      = .error "[Invariant Violated] Scale must have dimensions array" := by
    simp [addScale, validateScale, assert, DEV, hid, hname, hdims, Except.bind,
      pure, Except.pure]
  refine ⟨hrun, rfl, ?_⟩
  intro store2
  rw [hrun]
  intro h
  exact Except.noConfusion h

/-- Witness for C8: a payload with valid id and name but `dimensions`
absent. -/
theorem addScale_missing_dimensions_witness :
    addScale []
      { scale_id := .str "s1", scale_name := .str "Skala", dimensions := .undefined,
        position := some ⟨.num 0, .num 0⟩, is_root := true,
        parent_scale_id := .undefined, branch_index := .undefined,
        positionLocked := .undefined }
      = .error "[Invariant Violated] Scale must have dimensions array" :=
  (addScale_missing_dimensions []
    { scale_id := .str "s1", scale_name := .str "Skala", dimensions := .undefined,
      position := some ⟨.num 0, .num 0⟩, is_root := true,
      parent_scale_id := .undefined, branch_index := .undefined,
      positionLocked := .undefined }
    rfl rfl rfl).1

end MLPA
